import Mathlib

/-!
Verification of the SQL deployment tool's segmentation, classification,
validation and sequential-execution pipeline (src/streamlit_app.py).

The Python source is shallowly embedded: strings are modelled as
`List Char` at the core (`String` at the API), the regex
`(\$[a-zA-Z0-9_]*\$)([\s\S]*?)\1` used by `parse_sql` is modelled by the
explicit leftmost-shortest scan it denotes, and the character loop of
`parse_sql` is modelled by a structural recursion with the same state
(the in-string flag).  Python whitespace is modelled by its ASCII
whitespace class (space, tab, newline, carriage return, vertical tab,
form feed), which is exact for ASCII scripts.
-/

namespace SqlDeploy

/-- The single-quote character, written by code to avoid escapes. -/
def quoteChar : Char := Char.ofNat 39

/-- Python ASCII whitespace, the class stripped by str.strip(). -/
def pyWs (c : Char) : Bool :=
  c = ' ' || c = '\t' || c = '\n' || c = '\r' || c = Char.ofNat 11 || c = Char.ofNat 12

/-- str.lstrip() on char lists. -/
def pyLstripL (l : List Char) : List Char := l.dropWhile pyWs

/-- str.rstrip() on char lists. -/
def pyRstripL (l : List Char) : List Char := (l.reverse.dropWhile pyWs).reverse

/-- str.strip() on char lists. -/
def pyStripL (l : List Char) : List Char := pyRstripL (pyLstripL l)

/-- str.strip() on strings. -/
def pyStripS (s : String) : String := String.mk (pyStripL s.toList)

/-- A character of the regex class [a-zA-Z0-9_]. -/
def wordChar (c : Char) : Bool := c.isAlphanum || c = '_'

/-- Splitting on a separator character, keeping empty parts, as Python
str.split(sep) does.  The accumulator holds the current part reversed. -/
def splitOnCharAux (sep : Char) : List Char → List Char → List (List Char)
  | [], acc => [acc.reverse]
  | c :: rest, acc =>
    if c = sep then acc.reverse :: splitOnCharAux sep rest []
    else splitOnCharAux sep rest (c :: acc)

/-- The lines of a statement, as stmt.split(chr(10)) produces them. -/
def splitLines (l : List Char) : List (List Char) := splitOnCharAux '\n' l []

/-- A line that is kept by the comment filter of parse_sql:
line.strip() is non-empty and does not start with the marker. -/
def goodLine (line : List Char) : Bool :=
  !(pyStripL line).isEmpty && !(("--").toList.isPrefixOf (pyStripL line))

/-- The comment filter of parse_sql: some logical line survives. -/
def anyGoodLine (l : List Char) : Bool := (splitLines l).any goodLine

/-- Substring containment, Python pat in l. -/
def containsSub (l pat : List Char) : Bool :=
  (List.range (l.length + 1)).any (fun k => pat.isPrefixOf (l.drop k))

/-- Index of the first occurrence of pat in l at offset k or later,
counting from the given base.  This is the closing-delimiter search the
non-greedy regex body performs. -/
def firstOccAux (pat : List Char) : List Char → Nat → Option Nat
  | l, k =>
    if pat.isPrefixOf l then some k
    else
      match l with
      | [] => none
      | _ :: rest => firstOccAux pat rest (k + 1)

/-- The dollar tag the regex can match at the head of l, if any: a
dollar, a greedy run of word characters, a dollar. -/
def tagAt (l : List Char) : Option (List Char) :=
  match l with
  | [] => none
  | c :: rest =>
    if c = '$' then
      let w := rest.takeWhile wordChar
      match rest.drop w.length with
      | c2 :: _ => if c2 = '$' then some ('$' :: (w ++ ['$'])) else none
      | [] => none
    else none

/-- The placeholder text __DOLLAR_BLOCK_idx__ used by parse_sql. -/
def placeholderOf (idx : Nat) : List Char :=
  ("__DOLLAR_BLOCK_").toList ++ (toString idx).toList ++ ("__").toList

/-- Phase A of parse_sql: the re.sub scan.  At each position the engine
tries the tag pattern; on a tag with a later occurrence of the same tag
text the whole match is replaced by a placeholder and scanning resumes
after the match; otherwise the scan advances one character.  Fuel is at
least the list length, and each step consumes at least one character. -/
def protectAux : Nat → List Char → Nat → (List Char × List (List Char × List Char))
  | 0, l, _ => (l, [])
  | _ + 1, [], _ => ([], [])
  | fuel + 1, c :: rest, idx =>
    match tagAt (c :: rest) with
    | some t =>
      let after := (c :: rest).drop t.length
      match firstOccAux t after 0 with
      | some k =>
        let whole := t ++ after.take k ++ t
        let ph := placeholderOf idx
        let r := protectAux fuel (after.drop (k + t.length)) (idx + 1)
        (ph ++ r.1, (ph, whole) :: r.2)
      | none =>
        let r := protectAux fuel rest idx
        (c :: r.1, r.2)
    | none =>
      let r := protectAux fuel rest idx
      (c :: r.1, r.2)

/-- Phase A entry point: protected text plus placeholder table. -/
def protectList (l : List Char) : List Char × List (List Char × List Char) :=
  protectAux l.length l 0

/-- Phase B of parse_sql: the character scan that accumulates the
current statement and splits on semicolons outside single-quoted
strings; a doubled quote inside a string is consumed as one unit (hence
the explicit two-character pattern).  Returns the raw segments in
order, the final accumulator included. -/
def rawSegments : List Char → Bool → List Char → List (List Char)
  | [], _, acc => [acc.reverse]
  | [c], inStr, acc =>
    if c = ';' && !inStr then [acc.reverse, []]
    else [(c :: acc).reverse]
  | c :: c2 :: rest, inStr, acc =>
    if c = quoteChar then
      if inStr then
        if c2 = quoteChar then rawSegments rest true (c2 :: c :: acc)
        else rawSegments (c2 :: rest) false (c :: acc)
      else rawSegments (c2 :: rest) true (c :: acc)
    else if c = ';' then
      if inStr then rawSegments (c2 :: rest) true (c :: acc)
      else acc.reverse :: rawSegments (c2 :: rest) false []
    else rawSegments (c2 :: rest) inStr (c :: acc)

/-- str.replace(pat, repl) with a non-empty pattern: every
non-overlapping occurrence, left to right, replacement text not
rescanned.  Fuel is at least the list length. -/
def replaceAllFuel : Nat → List Char → List Char → List Char → List Char
  | 0, l, _, _ => l
  | _ + 1, [], _, _ => []
  | fuel + 1, c :: rest, pat, repl =>
    if pat.isPrefixOf (c :: rest) && !pat.isEmpty then
      repl ++ replaceAllFuel fuel ((c :: rest).drop pat.length) pat repl
    else c :: replaceAllFuel fuel rest pat repl

/-- str.replace entry point. -/
def replaceAllL (l pat repl : List Char) : List Char :=
  replaceAllFuel l.length l pat repl

/-- Phase C restore: substitute every placeholder back, in insertion
order of the placeholder table. -/
def restoreAll (phs : List (List Char × List Char)) (l : List Char) : List Char :=
  phs.foldl (fun acc pr => replaceAllL acc pr.1 pr.2) l

/-- Per-segment processing done by parse_sql at each semicolon and at
the end of the scan: strip, drop if empty, restore placeholders, drop
if no line survives the comment filter. -/
def processSeg (phs : List (List Char × List Char)) (seg : List Char) :
    Option (List Char) :=
  let stmt := pyStripL seg
  if stmt.isEmpty then none
  else
    let r := restoreAll phs stmt
    if anyGoodLine r then some r else none

/-- parse_sql of src/streamlit_app.py.  Single-statement mode strips
the script and returns it whole when non-empty; multi-statement mode
protects dollar-quoted blocks, splits on top-level semicolons, then
restores and filters. -/
def parse_sql (script : String) (singleStatementMode : Bool) : List String :=
  if singleStatementMode then
    let s := pyStripL script.toList
    if s.isEmpty then [] else [String.mk s]
  else
    let pm := protectList script.toList
    ((rawSegments pm.1 false []).filterMap (processSeg pm.2)).map String.mk

/-! ## Classifier: get_statement_type -/

/-- str.upper() on char lists (ASCII, as the scripts are). -/
def upperL (l : List Char) : List Char := l.map Char.toUpper

/-- str.lower() on char lists. -/
def lowerL (l : List Char) : List Char := l.map Char.toLower

/-- str.startswith on char lists. -/
def startsWithL (l pat : List Char) : Bool := pat.isPrefixOf l

/-- get_statement_type of src/streamlit_app.py: uppercase the stripped
statement and test leading keywords in source order; CREATE statements
are sub-classified by a secondary keyword anywhere in the text. -/
def getStatementType (stmt : String) : String :=
  let u := upperL (pyStripL stmt.toList)
  if startsWithL u (("CREATE").toList) then
    if containsSub u (("PROCEDURE").toList) then ("CREATE PROCEDURE")
    else if containsSub u (("FUNCTION").toList) then ("CREATE FUNCTION")
    else if containsSub u (("TABLE").toList) then ("CREATE TABLE")
    else if containsSub u (("VIEW").toList) then ("CREATE VIEW")
    else if containsSub u (("SCHEMA").toList) then ("CREATE SCHEMA")
    else if containsSub u (("DATABASE").toList) then ("CREATE DATABASE")
    else if containsSub u (("TASK").toList) then ("CREATE TASK")
    else if containsSub u (("STREAM").toList) then ("CREATE STREAM")
    else if containsSub u (("STAGE").toList) then ("CREATE STAGE")
    else if containsSub u (("PIPE").toList) then ("CREATE PIPE")
    else ("CREATE")
  else if startsWithL u (("ALTER").toList) then ("ALTER")
  else if startsWithL u (("DROP").toList) then ("DROP")
  else if startsWithL u (("TRUNCATE").toList) then ("TRUNCATE")
  else if startsWithL u (("INSERT").toList) then ("INSERT")
  else if startsWithL u (("UPDATE").toList) then ("UPDATE")
  else if startsWithL u (("DELETE").toList) then ("DELETE")
  else if startsWithL u (("MERGE").toList) then ("MERGE")
  else if startsWithL u (("SELECT").toList) then ("SELECT")
  else if startsWithL u (("WITH").toList) then ("SELECT (CTE)")
  else if startsWithL u (("CALL").toList) then ("CALL PROCEDURE")
  else if startsWithL u (("EXECUTE").toList) then ("EXECUTE")
  else if startsWithL u (("BEGIN").toList) then
    (if containsSub u (("TRANSACTION").toList) then ("BEGIN TRANSACTION") else ("BEGIN BLOCK"))
  else if startsWithL u (("COMMIT").toList) then ("COMMIT")
  else if startsWithL u (("ROLLBACK").toList) then ("ROLLBACK")
  else if startsWithL u (("COPY").toList) then ("COPY")
  else if startsWithL u (("PUT").toList) then ("PUT")
  else if startsWithL u (("GET").toList) then ("GET")
  else if startsWithL u (("GRANT").toList) then ("GRANT")
  else if startsWithL u (("REVOKE").toList) then ("REVOKE")
  else if startsWithL u (("USE").toList) then ("USE")
  else if startsWithL u (("SET").toList) then ("SET")
  else if startsWithL u (("SHOW").toList) then ("SHOW")
  else if startsWithL u (("DESCRIBE").toList) || startsWithL u (("DESC").toList) then ("DESCRIBE")
  else ("SQL")

/-- The two categories singled out by the validator and the rewriter. -/
def isProcType (t : String) : Bool :=
  t = ("CREATE PROCEDURE") || t = ("CREATE FUNCTION")

/-! ## Validator: the checks of show_deployment_interface -/

/-- str.count(pat): non-overlapping occurrences, scanned from the
left.  Fuel is at least the list length. -/
def countSubFuel : Nat → List Char → List Char → Nat
  | 0, _, _ => 0
  | _ + 1, [], _ => 0
  | fuel + 1, c :: rest, pat =>
    if pat.isPrefixOf (c :: rest) && !pat.isEmpty then
      1 + countSubFuel fuel ((c :: rest).drop pat.length) pat
    else countSubFuel fuel rest pat

/-- str.count entry point. -/
def countSubL (l pat : List Char) : Nat := countSubFuel l.length l pat

/-- A word boundary on the left of a match position: start of string or
a preceding non-word character. -/
def boundaryL (prev : Option Char) : Bool :=
  match prev with
  | none => true
  | some p => !wordChar p

/-- A word boundary on the right of a match: end of string or a
following non-word character. -/
def boundaryR (l : List Char) : Bool :=
  match l with
  | [] => true
  | c :: _ => !wordChar c

/-- len(re.findall(rb + pat + rb, l)) for a fixed word pat, where rb is
the word-boundary assertion: non-overlapping whole-word occurrences. -/
def countWordFuel (pat : List Char) : Nat → Option Char → List Char → Nat
  | 0, _, _ => 0
  | _ + 1, _, [] => 0
  | fuel + 1, prev, c :: rest =>
    if pat.isPrefixOf (c :: rest) && boundaryL prev &&
       boundaryR ((c :: rest).drop pat.length) then
      1 + countWordFuel pat fuel pat.getLast? ((c :: rest).drop pat.length)
    else countWordFuel pat fuel (some c) rest

/-- Whole-word count entry point. -/
def countWord (l pat : List Char) : Nat := countWordFuel pat l.length none l

/-- A match of BEGIN, one or more whitespace, TRANSACTION with a right
word boundary, at the head of l; returns the matched length. -/
def btMatchLen (l : List Char) : Option Nat :=
  if (("BEGIN").toList).isPrefixOf l then
    let after := l.drop 5
    let w := after.takeWhile pyWs
    if w.isEmpty then none
    else
      let after2 := after.drop w.length
      if (("TRANSACTION").toList).isPrefixOf after2 && boundaryR (after2.drop 11) then
        some (5 + w.length + 11)
      else none
  else none

/-- Non-overlapping whole-word count of BEGIN TRANSACTION. -/
def countBTFuel : Nat → Option Char → List Char → Nat
  | 0, _, _ => 0
  | _ + 1, _, [] => 0
  | fuel + 1, prev, c :: rest =>
    match (if boundaryL prev then btMatchLen (c :: rest) else none) with
    | some n => 1 + countBTFuel fuel (some 'N') ((c :: rest).drop n)
    | none => countBTFuel fuel (some c) rest

/-- BEGIN TRANSACTION count entry point. -/
def countBT (l : List Char) : Nat := countBTFuel l.length none l

/-- str.rfind(pat): index of the last occurrence, if any. -/
def lastOccIdx (l pat : List Char) : Option Nat :=
  (List.range (l.length + 1)).foldl
    (fun acc k => if pat.isPrefixOf (l.drop k) then some k else acc) none

/-- The structural defects the validator reports with severity error.
The constructors carry the data interpolated into the source's message
strings. -/
inductive VIssue where
  | missingDelims (t : String)
  | missingClosing (t : String)
  | oddDelims (t : String) (n : Nat)
  | missingEnd (t : String) (begins : Int) (ends : Nat)
  | txnIncomplete (t : String)
deriving DecidableEq

/-- The advisory warnings of the validator. -/
inductive VWarn where
  | noReturn (t : String)
  | trailingAfterDollar (t : String) (preview : String)
  | destructive (t : String)
  | grantAccountadmin
  | txnReminder
deriving DecidableEq

/-- The double-dollar delimiter check: count occurrences of the literal
substring, then report by count exactly as the source's if-chain. -/
def delimCheckOf (t : String) (stmt : List Char) : List VIssue :=
  if countSubL stmt (("$$").toList) = 0 then [VIssue.missingDelims t]
  else if countSubL stmt (("$$").toList) = 1 then [VIssue.missingClosing t]
  else if countSubL stmt (("$$").toList) % 2 ≠ 0 then
    [VIssue.oddDelims t (countSubL stmt (("$$").toList))]
  else []

/-- The BEGIN/END balance check: procedural begins are whole-word BEGIN
minus whole-word BEGIN TRANSACTION occurrences. -/
def endCheckOf (t : String) (up : List Char) : List VIssue :=
  if (countWord up (("BEGIN").toList) : Int) - (countBT up : Int) >
     (countWord up (("END").toList) : Int) then
    [VIssue.missingEnd t ((countWord up (("BEGIN").toList) : Int) - (countBT up : Int))
      (countWord up (("END").toList))]
  else []

/-- The unterminated-transaction check. -/
def txnCheckOf (t : String) (up : List Char) : List VIssue :=
  if (containsSub up (("BEGIN TRANSACTION").toList) ||
      containsSub up (("BEGIN WORK").toList)) &&
     !containsSub up (("COMMIT").toList) &&
     !containsSub up (("ROLLBACK").toList) then
    [VIssue.txnIncomplete t]
  else []

/-- Warning: RETURNS declared but no RETURN statement found. -/
def returnCheckOf (t : String) (up : List Char) : List VWarn :=
  if containsSub up (("RETURNS").toList) &&
     !containsSub up (("RETURN ").toList) &&
     !containsSub up (("RETURN\n").toList) then
    [VWarn.noReturn t]
  else []

/-- Warning: unexpected content after the closing double dollar. -/
def trailingCheckOf (t : String) (stmt : List Char) : List VWarn :=
  if 2 ≤ countSubL stmt (("$$").toList) then
    match lastOccIdx stmt (("$$").toList) with
    | some k =>
      let after := pyStripL (stmt.drop (k + 2))
      if !after.isEmpty && after ≠ (";").toList then
        [VWarn.trailingAfterDollar t (String.mk (after.take 20))]
      else []
    | none => []
  else []

/-- The warnings applied to every statement regardless of category. -/
def generalWarnsOf (t : String) (up : List Char) : List VWarn :=
  (if t = ("DROP") || t = ("TRUNCATE") || t = ("DELETE") then
    [VWarn.destructive t] else []) ++
  (if containsSub up (("GRANT").toList) && containsSub up (("ACCOUNTADMIN").toList) then
    [VWarn.grantAccountadmin] else []) ++
  (if t = ("BEGIN TRANSACTION") then [VWarn.txnReminder] else [])

/-- The per-statement body of the validation loop of
show_deployment_interface: errors and warnings, in append order. -/
def validateStatement (stmt : String) : List VIssue × List VWarn :=
  let t := getStatementType stmt
  let up := upperL stmt.toList
  ((if isProcType t then
      delimCheckOf t stmt.toList ++ endCheckOf t up ++ txnCheckOf t up
    else []),
   (if isProcType t then
      returnCheckOf t up ++ trailingCheckOf t stmt.toList
    else []) ++ generalWarnsOf t up)

/-- All validation errors for a statement list, in statement order. -/
def validateAll (stmts : List String) : List VIssue :=
  (stmts.map (fun s => (validateStatement s).1)).flatten

/-! ## Execution orchestrator: run_deployment -/

/-- The external engine collaborators consumed by run_deployment, one
value per run: context-setting results (an exception, or success with
an optional advisory note), availability of the two session-level
query-tag methods, and the two execution primitives.  The user, role
and timestamp strings stand for the values the source reads from the
session and the clock. -/
structure Engine where
  inSnowflake : Bool
  userName : String
  roleName : String
  tsStr : String
  setDatabaseR : Except String (Option String)
  setSchemaR : Except String (Option String)
  m1ok : Bool
  m2ok : Bool
  execDef : String → Except String Unit
  runQ : String → Except String Nat

/-- The explanatory hint execute_sql wraps around parse-related
procedure failures. -/
def procHintMsg (e : String) : String :=
  ("Procedure creation failed: ") ++ e ++
  ("\n\nNote: This may be a Streamlit-in-Snowflake limitation with $$ delimiters. Try deploying this procedure directly via Snowflake Worksheets.")

/-- execute_sql of src/streamlit_app.py: in-Snowflake procedure
dispatch strips the SQL first and re-reports parse-related failures
with a hint; every other path executes the text as given. -/
def execute_sql (eng : Engine) (sql : String) (isProc : Bool) : Except String Unit :=
  if eng.inSnowflake && isProc then
    match eng.execDef (pyStripS sql) with
    | Except.ok u => Except.ok u
    | Except.error e =>
      if containsSub (lowerL e.toList) (("parse error").toList) ||
         containsSub (lowerL e.toList) (("unexpected").toList) then
        Except.error (procHintMsg e)
      else Except.error e
  else eng.execDef sql

/-- The category-prefix whitelist routed to the definition-execution
primitive. -/
def ddlTypes : List String :=
  [("CREATE"), ("ALTER"), ("DROP"), ("TRUNCATE"), ("GRANT"), ("REVOKE"),
   ("BEGIN"), ("COMMIT"), ("ROLLBACK"), ("USE"), ("SET")]

/-- is_ddl of the dispatch loop: the category starts with a whitelisted
prefix. -/
def isDdlType (t : String) : Bool :=
  ddlTypes.any (fun d => d.toList.isPrefixOf t.toList)

/-- The row-count outcome summary of the query primitive. -/
def rowsSummary (n : Nat) : String := toString n ++ (" row(s) returned/affected")

/-- One dispatch: route by category to the definition primitive or the
query primitive and build the outcome summary. -/
def dispatchOne (eng : Engine) (t : String) (finalS : String) : Except String String :=
  if isDdlType t then
    match execute_sql eng finalS (isProcType t) with
    | Except.ok _ => Except.ok ("Executed successfully")
    | Except.error e => Except.error e
  else
    match eng.runQ finalS with
    | Except.ok n => Except.ok (if 0 < n then rowsSummary n else ("Executed successfully"))
    | Except.error e => Except.error e

/-- str.rstrip(cs) with an explicit character set. -/
def rstripCharsL (l : List Char) (cs : List Char) : List Char :=
  (l.reverse.dropWhile (fun c => cs.contains c)).reverse

/-- The character set of the source's rstrip call for trailing
semicolons. -/
def semiWsChars : List Char := [';', ' ', '\t', '\n']

/-- Trailing-semicolon normalization of the dispatch loop: rstrip the
statement; if it then ends with a semicolon, contains a double dollar,
and stripping trailing semicolons and whitespace leaves text ending in
a double dollar, dispatch the stripped text. -/
def finalNormalize (s : String) : String :=
  let f := pyRstripL s.toList
  if ((";").toList).isSuffixOf f && containsSub f (("$$").toList) then
    if (("$$").toList).isSuffixOf (rstripCharsL f semiWsChars) then
      String.mk (rstripCharsL f semiWsChars)
    else String.mk f
  else String.mk f

/-- The truncated SQL preview recorded in the log: first 100
characters, newlines collapsed to spaces, ellipsis when truncated. -/
def previewOf (s : String) : String :=
  String.mk ((s.toList.take 100).map (fun c => if c = '\n' then ' ' else c)) ++
  (if 100 < s.toList.length then ("...") else (""))

/-- The comment block prepended by query-tag method 3. -/
def tagCommentFor (eng : Engine) (tag : String) : String :=
  ("/* QUERY_TAG: ") ++ tag ++ (" | User: ") ++ eng.userName ++
  (" | Role: ") ++ eng.roleName ++ (" | Timestamp: ") ++ eng.tsStr ++ (" */")

/-- Whether method 3 (SQL comment prefix) is the active tagging method:
methods 1 and 2 both unavailable. -/
def useCommentOf (eng : Engine) : Bool :=
  !(eng.inSnowflake && eng.m1ok) && !eng.m2ok

/-- Statement rewriting of the dispatch loop: under method 3, prefix
the comment block, except for CREATE PROCEDURE and CREATE FUNCTION
statements which pass through unmodified. -/
def rewriteFor (eng : Engine) (tag : String) (stmt : String) : String :=
  if useCommentOf eng then
    if isProcType (getStatementType stmt) then stmt
    else tagCommentFor eng tag ++ ("\n") ++ stmt
  else stmt

/-- The SQL text the loop hands to a primitive for a statement. -/
def sentFor (eng : Engine) (tag : String) (stmt : String) : String :=
  finalNormalize (rewriteFor eng tag stmt)

/-- The dispatch result for one statement. -/
def attemptOf (eng : Engine) (tag : String) (stmt : String) : Except String String :=
  dispatchOne eng (getStatementType stmt) (sentFor eng tag stmt)

/-- The events run_deployment appends to the deployment log, with the
data the source interpolates; timestamps are not modelled. -/
inductive LogEntry where
  | connected
  | userRole (u r : String)
  | dbSet (d : String)
  | dbNote (d msg : String)
  | schemaSet (s : String)
  | schemaNote (s msg : String)
  | tagCommentNote (tag : String)
  | tagViaMethod (m tag : String)
  | noStatements
  | procSkipNote (t : String)
  | stmtOk (t summary : String)
  | sqlPreview (p : String)
  | stmtFailed (t : String)
  | stmtError (e : String)
  | runError (e : String)
deriving DecidableEq

/-- The observable outcome of a run: the ordered log, the ordered
progress-bar values, the SQL texts dispatched in order, one outcome
(category, succeeded) per dispatched statement, and the failure flag
that yields status FAILED. -/
structure RunResult where
  log : List LogEntry
  prog : List Nat
  sent : List String
  outcomes : List (String × Bool)
  failed : Bool
deriving DecidableEq

/-- The statement loop of run_deployment over statements i, i+1, ... of
n total: emit the progress value, rewrite, normalize, dispatch; on
success record the outcome and continue, on an exception record the
failure and halt.  The float percentage int(i/n*70) is modelled by the
integer quotient 70*i/n, which agrees on monotonicity and on the
endpoints the claims use. -/
def execLoop (eng : Engine) (tag : String) (n : Nat) : Nat → List String → RunResult
  | _, [] => ⟨[], [], [], [], false⟩
  | i, stmt :: rest =>
    let pct := 20 + 70 * i / n
    let t := getStatementType stmt
    let note : List LogEntry :=
      if useCommentOf eng && isProcType t then [LogEntry.procSkipNote t] else []
    match attemptOf eng tag stmt with
    | Except.ok summary =>
      let r := execLoop eng tag n (i + 1) rest
      ⟨note ++ [LogEntry.stmtOk t summary, LogEntry.sqlPreview (previewOf stmt)] ++ r.log,
       pct :: r.prog, sentFor eng tag stmt :: r.sent, (t, true) :: r.outcomes, r.failed⟩
    | Except.error e =>
      ⟨note ++ [LogEntry.stmtFailed t, LogEntry.sqlPreview (previewOf stmt), LogEntry.stmtError e],
       [pct], [sentFor eng tag stmt], [(t, false)], true⟩

/-- The schema step: skipped when no schema is selected, otherwise the
engine call with its log entry; an exception propagates. -/
def schemaStep (eng : Engine) (schema : Option String) : Except String (List LogEntry) :=
  match schema with
  | none => Except.ok []
  | some s =>
    match eng.setSchemaR with
    | Except.error e => Except.error e
    | Except.ok none => Except.ok [LogEntry.schemaSet s]
    | Except.ok (some m) => Except.ok [LogEntry.schemaNote s m]

/-- The log entry of the query-tag setup, by the method adopted. -/
def tagLogOf (eng : Engine) (tag : String) : List LogEntry :=
  if eng.inSnowflake && eng.m1ok then [LogEntry.tagViaMethod ("session property") tag]
  else if eng.m2ok then [LogEntry.tagViaMethod ("ALTER SESSION") tag]
  else [LogEntry.tagCommentNote tag]

/-- run_deployment of src/streamlit_app.py: connect, set database, set
schema, adopt a query-tag method, parse, then run the statement loop;
an exception in a setup step is caught by the outer handler, logged,
and marks the run failed with no statements attempted. -/
def runDeployment (eng : Engine) (tag db : String) (schema : Option String)
    (script : String) (singleMode : Bool) : RunResult :=
  let log0 : List LogEntry := [LogEntry.connected, LogEntry.userRole eng.userName eng.roleName]
  let prog0 : List Nat := [0, 5]
  match eng.setDatabaseR with
  | Except.error e => ⟨log0 ++ [LogEntry.runError e], prog0, [], [], true⟩
  | Except.ok dbRes =>
    let log1 := log0 ++ [match dbRes with
                         | none => LogEntry.dbSet db
                         | some m => LogEntry.dbNote db m]
    let prog1 := prog0 ++ [10]
    match schemaStep eng schema with
    | Except.error e => ⟨log1 ++ [LogEntry.runError e], prog1, [], [], true⟩
    | Except.ok slog =>
      let log2 := log1 ++ slog
      let prog2 := prog1 ++ [15]
      let log3 := log2 ++ tagLogOf eng tag
      let prog3 := prog2 ++ [20]
      let stmts := parse_sql script singleMode
      if stmts.isEmpty then
        ⟨log3 ++ [LogEntry.noStatements], prog3 ++ [100], [], [], false⟩
      else
        let r := execLoop eng tag stmts.length 1 stmts
        ⟨log3 ++ r.log, prog3 ++ r.prog ++ [100], r.sent, r.outcomes, r.failed⟩

/-- The run status string shown and logged. -/
def statusOf (r : RunResult) : String := if r.failed then ("FAILED") else ("SUCCESS")

/-- The dispatch schedule of a run as a function of the engine, the
tag, the schema selection and the statement list alone.  This
definition makes no reference to the validator. -/
def dispatchPlan (eng : Engine) (tag : String) (schema : Option String)
    (stmts : List String) : List String :=
  match eng.setDatabaseR with
  | Except.error _ => []
  | Except.ok _ =>
    match schemaStep eng schema with
    | Except.error _ => []
    | Except.ok _ => (execLoop eng tag stmts.length 1 stmts).sent

/-! ## Concrete engines used by the witnesses and counterexamples -/

/-- An engine whose context and dispatch calls all succeed and whose
session-level tag methods are unavailable, so method 3 is active. -/
def okEngine : Engine :=
  ⟨false, ("U"), ("R"), ("T"), Except.ok none, Except.ok none, false, false,
   fun _ => Except.ok (), fun _ => Except.ok 1⟩

/-- An engine that fails exactly on the query text SELECT 2, with
method 2 available so statements are dispatched unrewritten. -/
def failEngine : Engine :=
  ⟨false, ("U"), ("R"), ("T"), Except.ok none, Except.ok none, false, true,
   fun _ => Except.ok (),
   fun sql => if sql = ("SELECT 2") then Except.error ("boom") else Except.ok 1⟩

/-- An engine whose database context call raises, aborting setup. -/
def badEngine : Engine :=
  ⟨false, ("U"), ("R"), ("T"), Except.error ("database failure"), Except.ok none, false, true,
   fun _ => Except.ok (), fun _ => Except.ok 1⟩

/-! ## Definitions supporting the individual claims -/

/-- The delimiter-check errors among the validator's error kinds. -/
def isDelimErr : VIssue → Bool
  | VIssue.missingDelims _ => true
  | VIssue.missingClosing _ => true
  | VIssue.oddDelims _ _ => true
  | _ => false

/-- Reference notion of a comment-only fragment, following the spec's
Phase C words: after trimming, every non-empty line begins with the
line-comment marker, the marker stripped-then-checked per logical
line. -/
def isCommentOnlyFrag (f : List Char) : Bool :=
  (splitLines f).all
    (fun line => (pyStripL line).isEmpty || ("--").toList.isPrefixOf (pyStripL line))

/-- Reference segmentation, following the spec's words for scripts
without dollar-quoted blocks or string literals: split the script on
every semicolon, trim each fragment, and remove fragments that are
empty or comment-only. -/
def referenceSegment (script : String) : List String :=
  (((splitOnCharAux ';' script.toList []).map pyStripL).filter
    (fun f => !f.isEmpty && !isCommentOnlyFrag f)).map String.mk

/-- The protected text Phase B scans for a script. -/
def protectedTextOf (script : String) : List Char := (protectList script.toList).1

/-- One step of the Phase B scanner, as a relation on (remaining input,
in-string flag) configurations, mirroring the branches of rawSegments:
an opening quote, an escaped quote pair, a closing quote, a splitting
or in-string semicolon, or any other character. -/
inductive SegStep : List Char × Bool → List Char × Bool → Prop where
  | openQuote (rest : List Char) : SegStep (quoteChar :: rest, false) (rest, true)
  | escPair (rest : List Char) : SegStep (quoteChar :: quoteChar :: rest, true) (rest, true)
  | closeQuote (c2 : Char) (rest : List Char) (h : c2 ≠ quoteChar) :
      SegStep (quoteChar :: c2 :: rest, true) (c2 :: rest, false)
  | semiSplit (rest : List Char) : SegStep (';' :: rest, false) (rest, false)
  | semiIn (rest : List Char) : SegStep (';' :: rest, true) (rest, true)
  | plain (c : Char) (rest : List Char) (b : Bool) (h1 : c ≠ quoteChar) (h2 : c ≠ ';') :
      SegStep (c :: rest, b) (rest, b)

/-- Whether a scan that is inside a single-quoted string ever leaves it
on this input: escaped pairs are consumed whole, a lone quote (or a
quote as the final character) closes. -/
def closesString : List Char → Bool
  | [] => false
  | [c] => c = quoteChar
  | c :: c2 :: rest =>
    if c = quoteChar then
      if c2 = quoteChar then closesString rest else true
    else closesString (c2 :: rest)

/-! ## Helper lemmas -/

theorem splitOnCharAux_nil (sep : Char) (acc : List Char) :
    splitOnCharAux sep [] acc = [acc.reverse] := rfl

theorem splitOnCharAux_cons (sep d : Char) (rest acc : List Char) :
    splitOnCharAux sep (d :: rest) acc =
      if d = sep then acc.reverse :: splitOnCharAux sep rest []
      else splitOnCharAux sep rest (d :: acc) := rfl

theorem mem_splitOnCharAux {sep : Char} :
    ∀ (l acc part : List Char), part ∈ splitOnCharAux sep l acc →
      ∀ c ∈ part, c ∈ l ∨ c ∈ acc := by
  intro l
  induction l with
  | nil =>
    intro acc part hp c hc
    rw [splitOnCharAux_nil, List.mem_singleton] at hp
    subst hp
    exact Or.inr (List.mem_reverse.mp hc)
  | cons d rest ih =>
    intro acc part hp c hc
    by_cases hd : d = sep
    · rw [splitOnCharAux_cons, if_pos hd, List.mem_cons] at hp
      rcases hp with hp | hp
      · subst hp
        exact Or.inr (List.mem_reverse.mp hc)
      · rcases ih [] part hp c hc with h | h
        · exact Or.inl (List.mem_cons_of_mem _ h)
        · simp at h
    · rw [splitOnCharAux_cons, if_neg hd] at hp
      rcases ih (d :: acc) part hp c hc with h | h
      · exact Or.inl (List.mem_cons_of_mem _ h)
      · rcases List.mem_cons.mp h with h | h
        · exact Or.inl (by simp [h])
        · exact Or.inr h

theorem pyStripL_eq_nil_iff (l : List Char) :
    pyStripL l = [] ↔ ∀ c ∈ l, pyWs c = true := by
  constructor
  · intro h c hc
    have h1 : (pyLstripL l).reverse.dropWhile pyWs = [] := by
      have h0 := congrArg List.reverse h
      simpa [pyStripL, pyRstripL] using h0
    have h2 : ∀ x ∈ pyLstripL l, pyWs x = true := by
      intro x hx
      exact List.dropWhile_eq_nil_iff.mp h1 x (List.mem_reverse.mpr hx)
    have h3 : c ∈ l.takeWhile pyWs ++ l.dropWhile pyWs := by
      rw [List.takeWhile_append_dropWhile]
      exact hc
    rcases List.mem_append.mp h3 with h4 | h4
    · exact List.mem_takeWhile_imp h4
    · exact h2 c h4
  · intro h
    have h5 : l.dropWhile pyWs = [] := List.dropWhile_eq_nil_iff.mpr h
    simp [pyStripL, pyLstripL, pyRstripL, h5]

theorem anyGoodLine_strip_ne_nil {l : List Char} (h : anyGoodLine l = true) :
    pyStripL l ≠ [] := by
  intro hnil
  unfold anyGoodLine at h
  rcases List.any_eq_true.mp h with ⟨line, hline, hgood⟩
  have h1 : pyStripL line ≠ [] := by
    intro h0
    simp [goodLine, h0] at hgood
  have h2 : ¬ ∀ c ∈ line, pyWs c = true :=
    fun hall => h1 ((pyStripL_eq_nil_iff line).mpr hall)
  push_neg at h2
  obtain ⟨c, hc, hcw⟩ := h2
  unfold splitLines at hline
  have hcl : c ∈ l := by
    rcases mem_splitOnCharAux l [] line hline c hc with h3 | h3
    · exact h3
    · simp at h3
  exact hcw ((pyStripL_eq_nil_iff l).mp hnil c hcl)

/-! ## C5: the double-dollar delimiter check -/

theorem filter_delimCheckOf (t : String) (s : List Char) :
    (delimCheckOf t s).filter isDelimErr = delimCheckOf t s := by
  unfold delimCheckOf
  split_ifs <;> simp [isDelimErr]

theorem filter_endCheckOf (t : String) (u : List Char) :
    (endCheckOf t u).filter isDelimErr = [] := by
  unfold endCheckOf
  split_ifs <;> simp [isDelimErr]

theorem filter_txnCheckOf (t : String) (u : List Char) :
    (txnCheckOf t u).filter isDelimErr = [] := by
  unfold txnCheckOf
  split_ifs <;> simp [isDelimErr]

/-- C5: for every statement classified CREATE PROCEDURE or CREATE
FUNCTION, the delimiter check contributes exactly the one error
determined by the count of the literal substring of two dollar signs
(0: missing delimiters; 1: missing closing delimiter; odd above 1:
mismatched count; even at least 2: none), and the concrete statement
CREATE PROCEDURE x() AS body yields exactly one error, citing missing
delimiters. -/
theorem c5_delimiter_check (stmt : String)
    (h : getStatementType stmt = ("CREATE PROCEDURE") ∨
         getStatementType stmt = ("CREATE FUNCTION")) :
    ((validateStatement stmt).1.filter isDelimErr =
      (if countSubL stmt.toList (("$$").toList) = 0 then
        [VIssue.missingDelims (getStatementType stmt)]
       else if countSubL stmt.toList (("$$").toList) = 1 then
        [VIssue.missingClosing (getStatementType stmt)]
       else if countSubL stmt.toList (("$$").toList) % 2 = 1 then
        [VIssue.oddDelims (getStatementType stmt) (countSubL stmt.toList (("$$").toList))]
       else []))
    ∧ (validateStatement ("CREATE PROCEDURE x() AS body")).1
        = [VIssue.missingDelims ("CREATE PROCEDURE")] := by
  constructor
  · have hp : isProcType (getStatementType stmt) = true := by
      rcases h with h | h <;> simp [isProcType, h]
    have h1 : (validateStatement stmt).1 =
        delimCheckOf (getStatementType stmt) stmt.toList ++
        endCheckOf (getStatementType stmt) (upperL stmt.toList) ++
        txnCheckOf (getStatementType stmt) (upperL stmt.toList) := by
      simp [validateStatement, hp]
    rw [h1, List.filter_append, List.filter_append, filter_delimCheckOf,
        filter_endCheckOf, filter_txnCheckOf, List.append_nil, List.append_nil]
    unfold delimCheckOf
    rcases Nat.eq_zero_or_pos (countSubL stmt.toList (("$$").toList)) with h0 | h0
    · simp [h0]
    · rcases Nat.lt_or_ge (countSubL stmt.toList (("$$").toList)) 2 with h2 | h2
      · have : countSubL stmt.toList (("$$").toList) = 1 := by omega
        simp [this]
      · have hne0 : countSubL stmt.toList (("$$").toList) ≠ 0 := by omega
        have hne1 : countSubL stmt.toList (("$$").toList) ≠ 1 := by omega
        rcases Nat.mod_two_eq_zero_or_one (countSubL stmt.toList (("$$").toList)) with hm | hm
        · simp [hne0, hne1, hm]
        · simp [hne0, hne1, hm]
  · decide

theorem c5_delimiter_check_witness :
    (getStatementType ("CREATE PROCEDURE x() AS body") = ("CREATE PROCEDURE") ∨
     getStatementType ("CREATE PROCEDURE x() AS body") = ("CREATE FUNCTION")) ∧
    (((validateStatement ("CREATE PROCEDURE x() AS body")).1.filter isDelimErr =
      (if countSubL (("CREATE PROCEDURE x() AS body")).toList (("$$").toList) = 0 then
        [VIssue.missingDelims (getStatementType ("CREATE PROCEDURE x() AS body"))]
       else if countSubL (("CREATE PROCEDURE x() AS body")).toList (("$$").toList) = 1 then
        [VIssue.missingClosing (getStatementType ("CREATE PROCEDURE x() AS body"))]
       else if countSubL (("CREATE PROCEDURE x() AS body")).toList (("$$").toList) % 2 = 1 then
        [VIssue.oddDelims (getStatementType ("CREATE PROCEDURE x() AS body"))
          (countSubL (("CREATE PROCEDURE x() AS body")).toList (("$$").toList))]
       else []))
    ∧ (validateStatement ("CREATE PROCEDURE x() AS body")).1
        = [VIssue.missingDelims ("CREATE PROCEDURE")]) :=
  ⟨Or.inl (by decide),
   c5_delimiter_check ("CREATE PROCEDURE x() AS body") (Or.inl (by decide))⟩

/-! ## C10: every returned statement is non-empty and non-commentary -/

/-- C10: every statement returned by the segmenter in multi-statement
mode has at least one logical line whose stripped text is non-empty and
does not start with the comment marker, and is non-empty after
trimming. -/
theorem c10_no_empty_or_comment_statement (script s : String)
    (hs : s ∈ parse_sql script false) :
    anyGoodLine s.toList = true ∧ pyStripL s.toList ≠ [] := by
  unfold parse_sql at hs
  simp only [Bool.false_eq_true, if_false, List.mem_map] at hs
  obtain ⟨l, hl, hmk⟩ := hs
  obtain ⟨seg, hsegmem, hseg⟩ := List.mem_filterMap.mp hl
  unfold processSeg at hseg
  by_cases he : (pyStripL seg).isEmpty
  · simp [he] at hseg
  · simp only [he, Bool.false_eq_true, if_false] at hseg
    by_cases hg : anyGoodLine (restoreAll (protectList script.toList).2 (pyStripL seg)) = true
    · rw [if_pos hg, Option.some_inj] at hseg
      have hsl : s.toList = l := by
        rw [← hmk]
        rfl
      rw [hsl, ← hseg]
      exact ⟨hg, anyGoodLine_strip_ne_nil hg⟩
    · rw [if_neg hg] at hseg
      simp at hseg

theorem c10_no_empty_or_comment_statement_witness :
    (("SELECT 1") ∈ parse_sql ("SELECT 1;") false) ∧
    (anyGoodLine (("SELECT 1")).toList = true ∧ pyStripL (("SELECT 1")).toList ≠ []) :=
  ⟨by decide, c10_no_empty_or_comment_statement ("SELECT 1;") ("SELECT 1") (by decide)⟩

/-! ## C2: validator output never gates dispatch -/

/-- C2: the statements the orchestrator dispatches, and their order,
are a function of the engine, the tag, the schema selection and the
parsed statement list alone (dispatchPlan makes no reference to the
validator), so a non-empty validator error list neither prevents,
reorders nor alters the dispatch of any statement. -/
theorem c2_validator_never_gates (eng : Engine) (tag db : String) (schema : Option String)
    (script : String) (mode : Bool)
    (h : validateAll (parse_sql script mode) ≠ []) :
    (runDeployment eng tag db schema script mode).sent =
      dispatchPlan eng tag schema (parse_sql script mode) := by
  unfold runDeployment dispatchPlan
  cases hdb : eng.setDatabaseR with
  | error e => rfl
  | ok v =>
    cases hsch : schemaStep eng schema with
    | error e => rfl
    | ok lg =>
      by_cases he : (parse_sql script mode).isEmpty
      · have h0 : parse_sql script mode = [] := List.isEmpty_iff.mp he
        simp [he, h0, execLoop]
      · simp [he]

theorem c2_validator_never_gates_witness :
    (validateAll (parse_sql ("CREATE PROCEDURE x() AS body;") false) ≠ []) ∧
    (runDeployment okEngine ("J-1") ("DB") none ("CREATE PROCEDURE x() AS body;") false).sent =
      dispatchPlan okEngine ("J-1") none (parse_sql ("CREATE PROCEDURE x() AS body;") false) :=
  ⟨by decide,
   c2_validator_never_gates okEngine ("J-1") ("DB") none
     ("CREATE PROCEDURE x() AS body;") false (by decide)⟩

/-! ## Equation lemmas for the statement loop -/

theorem execLoop_nil (eng : Engine) (tag : String) (n i : Nat) :
    execLoop eng tag n i [] = ⟨[], [], [], [], false⟩ := rfl

theorem execLoop_cons_ok (eng : Engine) (tag : String) (n i : Nat) (stmt : String)
    (rest : List String) (u : String) (h : attemptOf eng tag stmt = Except.ok u) :
    execLoop eng tag n i (stmt :: rest) =
      ⟨(if useCommentOf eng && isProcType (getStatementType stmt) then
          [LogEntry.procSkipNote (getStatementType stmt)] else []) ++
        [LogEntry.stmtOk (getStatementType stmt) u,
         LogEntry.sqlPreview (previewOf stmt)] ++ (execLoop eng tag n (i + 1) rest).log,
       (20 + 70 * i / n) :: (execLoop eng tag n (i + 1) rest).prog,
       sentFor eng tag stmt :: (execLoop eng tag n (i + 1) rest).sent,
       (getStatementType stmt, true) :: (execLoop eng tag n (i + 1) rest).outcomes,
       (execLoop eng tag n (i + 1) rest).failed⟩ := by
  conv_lhs => unfold execLoop
  rw [h]

theorem execLoop_cons_err (eng : Engine) (tag : String) (n i : Nat) (stmt : String)
    (rest : List String) (e : String) (h : attemptOf eng tag stmt = Except.error e) :
    execLoop eng tag n i (stmt :: rest) =
      ⟨(if useCommentOf eng && isProcType (getStatementType stmt) then
          [LogEntry.procSkipNote (getStatementType stmt)] else []) ++
        [LogEntry.stmtFailed (getStatementType stmt),
         LogEntry.sqlPreview (previewOf stmt), LogEntry.stmtError e],
       [20 + 70 * i / n],
       [sentFor eng tag stmt],
       [(getStatementType stmt, false)],
       true⟩ := by
  conv_lhs => unfold execLoop
  rw [h]

/-! ## C3: the orchestrator halts at the first dispatch failure -/

theorem execLoop_halts (eng : Engine) (tag : String) (n : Nat) :
    ∀ (pre : List String) (i : Nat) (b : String) (post : List String),
      (∀ s ∈ pre, ∃ u, attemptOf eng tag s = Except.ok u) →
      (∃ e, attemptOf eng tag b = Except.error e) →
      (execLoop eng tag n i (pre ++ b :: post)).outcomes =
          pre.map (fun s => (getStatementType s, true)) ++ [(getStatementType b, false)] ∧
        (execLoop eng tag n i (pre ++ b :: post)).failed = true ∧
        (execLoop eng tag n i (pre ++ b :: post)).sent =
          pre.map (sentFor eng tag) ++ [sentFor eng tag b] := by
  intro pre
  induction pre with
  | nil =>
    intro i b post hpre hb
    obtain ⟨e, he⟩ := hb
    rw [List.nil_append, execLoop_cons_err eng tag n i b post e he]
    simp
  | cons s rest ih =>
    intro i b post hpre hb
    obtain ⟨u, hu⟩ := hpre s (by simp)
    rw [List.cons_append, execLoop_cons_ok eng tag n i s (rest ++ b :: post) u hu]
    have hstep := ih (i + 1) b post (fun x hx => hpre x (by simp [hx])) hb
    simp only [List.map_cons, List.cons_append]
    exact ⟨by simp [hstep.1], by simp [hstep.2.1], by simp [hstep.2.2]⟩

/-- C3: when every statement before b dispatches successfully and b's
dispatch raises, the run records exactly one outcome per statement up
to and including b, ends with status FAILED, and dispatches exactly
pre.length + 1 statements: the statements after b are never dispatched
and never receive an outcome. -/
theorem c3_halts_on_first_failure (eng : Engine) (tag db : String) (schema : Option String)
    (script : String) (mode : Bool) (pre : List String) (b : String) (post : List String)
    (hdb : ∃ v, eng.setDatabaseR = Except.ok v)
    (hsch : ∃ lg, schemaStep eng schema = Except.ok lg)
    (hparse : parse_sql script mode = pre ++ b :: post)
    (hpre : ∀ s ∈ pre, ∃ u, attemptOf eng tag s = Except.ok u)
    (hb : ∃ e, attemptOf eng tag b = Except.error e) :
    (runDeployment eng tag db schema script mode).outcomes =
        pre.map (fun s => (getStatementType s, true)) ++ [(getStatementType b, false)] ∧
      statusOf (runDeployment eng tag db schema script mode) = ("FAILED") ∧
      (runDeployment eng tag db schema script mode).sent.length = pre.length + 1 := by
  obtain ⟨v, hv⟩ := hdb
  obtain ⟨lg, hl⟩ := hsch
  have hloop := execLoop_halts eng tag (pre ++ b :: post).length pre 1 b post hpre hb
  have hne : (pre ++ b :: post).isEmpty = false := by simp
  unfold runDeployment
  rw [hv, hl]
  simp only [hparse, hne, Bool.false_eq_true, if_false]
  refine ⟨hloop.1, ?_, ?_⟩
  · simp only [statusOf, hloop.2.1, if_true]
  · rw [hloop.2.2]
    simp

theorem c3_halts_on_first_failure_witness :
    (∃ v, failEngine.setDatabaseR = Except.ok v) ∧
    (∃ lg, schemaStep failEngine none = Except.ok lg) ∧
    (parse_sql ("SELECT 1; SELECT 2; SELECT 3;") false =
      [("SELECT 1")] ++ ("SELECT 2") :: [("SELECT 3")]) ∧
    ((runDeployment failEngine ("J-1") ("DB") none ("SELECT 1; SELECT 2; SELECT 3;") false).outcomes =
        [("SELECT 1")].map (fun s => (getStatementType s, true)) ++
          [(getStatementType ("SELECT 2"), false)] ∧
      statusOf (runDeployment failEngine ("J-1") ("DB") none
        ("SELECT 1; SELECT 2; SELECT 3;") false) = ("FAILED") ∧
      (runDeployment failEngine ("J-1") ("DB") none
        ("SELECT 1; SELECT 2; SELECT 3;") false).sent.length = [("SELECT 1")].length + 1) :=
  ⟨⟨none, rfl⟩, ⟨[], rfl⟩, by decide,
   c3_halts_on_first_failure failEngine ("J-1") ("DB") none
     ("SELECT 1; SELECT 2; SELECT 3;") false [("SELECT 1")] ("SELECT 2") [("SELECT 3")]
     ⟨none, rfl⟩ ⟨[], rfl⟩ (by decide)
     (by
       intro s hs
       rw [List.mem_singleton] at hs
       subst hs
       exact ⟨rowsSummary 1, rfl⟩)
     ⟨("boom"), rfl⟩⟩

/-! ## C6: method-3 comment rewriting -/

theorem execLoop_sent_sub (eng : Engine) (tag : String) (n : Nat) :
    ∀ (stmts : List String) (i : Nat) (d : String),
      d ∈ (execLoop eng tag n i stmts).sent → ∃ s ∈ stmts, d = sentFor eng tag s := by
  intro stmts
  induction stmts with
  | nil =>
    intro i d hd
    rw [execLoop_nil] at hd
    simp at hd
  | cons s rest ih =>
    intro i d hd
    cases ha : attemptOf eng tag s with
    | ok u =>
      rw [execLoop_cons_ok eng tag n i s rest u ha] at hd
      simp only [List.mem_cons] at hd
      rcases hd with hd | hd
      · exact ⟨s, by simp, hd⟩
      · obtain ⟨s2, hs2, hds⟩ := ih (i + 1) d hd
        exact ⟨s2, by simp [hs2], hds⟩
    | error e =>
      rw [execLoop_cons_err eng tag n i s rest e ha] at hd
      simp only [List.mem_singleton] at hd
      exact ⟨s, by simp, hd⟩

/-- C6: when method 3 (SQL comment prefix) is the active tagging
method, every dispatched SQL text is the normalization of the
statement's rewriting, and that rewriting leaves CREATE PROCEDURE and
CREATE FUNCTION statements unchanged while prefixing every other
statement with the comment block carrying tag, user, role and
timestamp. -/
theorem c6_method3_comment_rewrite (eng : Engine) (tag db : String) (schema : Option String)
    (script : String) (mode : Bool)
    (hdb : ∃ v, eng.setDatabaseR = Except.ok v)
    (hsch : ∃ lg, schemaStep eng schema = Except.ok lg)
    (hm3 : useCommentOf eng = true) :
    ∀ d ∈ (runDeployment eng tag db schema script mode).sent,
      ∃ s ∈ parse_sql script mode,
        d = finalNormalize (rewriteFor eng tag s) ∧
        (isProcType (getStatementType s) = true → rewriteFor eng tag s = s) ∧
        (isProcType (getStatementType s) = false →
          rewriteFor eng tag s = tagCommentFor eng tag ++ ("\n") ++ s) := by
  obtain ⟨v, hv⟩ := hdb
  obtain ⟨lg, hl⟩ := hsch
  intro d hd
  unfold runDeployment at hd
  rw [hv, hl] at hd
  by_cases he : (parse_sql script mode).isEmpty
  · simp only [he, if_true] at hd
    simp at hd
  · simp only [he, Bool.false_eq_true, if_false] at hd
    obtain ⟨s, hs, hds⟩ := execLoop_sent_sub eng tag _ _ 1 d hd
    refine ⟨s, hs, hds.trans rfl, ?_, ?_⟩
    · intro hp
      simp [rewriteFor, hm3, hp]
    · intro hp
      simp [rewriteFor, hm3, hp]

theorem c6_method3_comment_rewrite_witness :
    (∃ v, okEngine.setDatabaseR = Except.ok v) ∧
    (∃ lg, schemaStep okEngine none = Except.ok lg) ∧
    useCommentOf okEngine = true ∧
    (∀ d ∈ (runDeployment okEngine ("J-1") ("DB") none ("SELECT 1;") false).sent,
      ∃ s ∈ parse_sql ("SELECT 1;") false,
        d = finalNormalize (rewriteFor okEngine ("J-1") s) ∧
        (isProcType (getStatementType s) = true → rewriteFor okEngine ("J-1") s = s) ∧
        (isProcType (getStatementType s) = false →
          rewriteFor okEngine ("J-1") s = tagCommentFor okEngine ("J-1") ++ ("\n") ++ s)) :=
  ⟨⟨none, rfl⟩, ⟨[], rfl⟩, by decide,
   c6_method3_comment_rewrite okEngine ("J-1") ("DB") none ("SELECT 1;") false
     ⟨none, rfl⟩ ⟨[], rfl⟩ (by decide)⟩

/-! ## C8: the empty statement list -/

/-- C8 (amended): for every run whose setup steps complete without an
exception and whose segmented statement list is empty, the run
completes with status SUCCESS and the log contains the entry noting
that there are no statements to execute. -/
theorem c8_empty_statement_list_success (eng : Engine) (tag db : String)
    (schema : Option String) (script : String) (mode : Bool)
    (hdb : ∃ v, eng.setDatabaseR = Except.ok v)
    (hsch : ∃ lg, schemaStep eng schema = Except.ok lg)
    (hempty : parse_sql script mode = []) :
    statusOf (runDeployment eng tag db schema script mode) = ("SUCCESS") ∧
    LogEntry.noStatements ∈ (runDeployment eng tag db schema script mode).log := by
  obtain ⟨v, hv⟩ := hdb
  obtain ⟨lg, hl⟩ := hsch
  unfold runDeployment
  rw [hv, hl]
  simp [hempty, statusOf]

theorem c8_empty_statement_list_success_witness :
    (∃ v, okEngine.setDatabaseR = Except.ok v) ∧
    (∃ lg, schemaStep okEngine none = Except.ok lg) ∧
    parse_sql ("") false = [] ∧
    (statusOf (runDeployment okEngine ("J-1") ("DB") none ("") false) = ("SUCCESS") ∧
     LogEntry.noStatements ∈ (runDeployment okEngine ("J-1") ("DB") none ("") false).log) :=
  ⟨⟨none, rfl⟩, ⟨[], rfl⟩, by decide,
   c8_empty_statement_list_success okEngine ("J-1") ("DB") none ("") false
     ⟨none, rfl⟩ ⟨[], rfl⟩ (by decide)⟩

/-- C8 counterexample: a run whose segmented statement list is empty
but whose database-setup call raises completes with status FAILED and
without the no-statements log entry, so the claim as stated (SUCCESS
for every run with an empty statement list) is false on the code. -/
theorem c8_empty_statement_list_counterexample :
    parse_sql ("") false = [] ∧
    statusOf (runDeployment badEngine ("J-1") ("DB") none ("") false) = ("FAILED") ∧
    LogEntry.noStatements ∉ (runDeployment badEngine ("J-1") ("DB") none ("") false).log := by
  decide

/-! ## C7: the progress counter -/

/-- C7 counterexample: a run aborted by a database-setup exception ends
with status FAILED and its progress counter never reaches 100, so the
claim as stated (100 on run completion regardless of outcome) fails. -/
theorem c7_progress_counterexample :
    statusOf (runDeployment badEngine ("J-1") ("DB") none ("SELECT 1;") false) = ("FAILED") ∧
    100 ∉ (runDeployment badEngine ("J-1") ("DB") none ("SELECT 1;") false).prog := by
  decide

theorem pct_le_70 (n m : Nat) (hn : 0 < n) (hm : m ≤ n) : 70 * m / n ≤ 70 := by
  calc 70 * m / n ≤ 70 * n / n := Nat.div_le_div_right (Nat.mul_le_mul_left 70 hm)
  _ = 70 * (n / n) := Nat.mul_div_assoc 70 (dvd_refl n)
  _ = 70 := by rw [Nat.div_self hn, Nat.mul_one]

theorem chain_map_range (f : Nat → Nat) (hf : ∀ a b, a ≤ b → f a ≤ f b) (k : Nat) :
    List.Chain' (· ≤ ·) ((List.range k).map f) := by
  refine List.Pairwise.chain' ?_
  refine List.Pairwise.map f (fun a b hab => hf a b (Nat.le_of_lt hab)) ?_
  exact List.pairwise_lt_range k

theorem execLoop_prog_shape (eng : Engine) (tag : String) (n : Nat) :
    ∀ (stmts : List String) (i : Nat),
      ∃ k, k ≤ stmts.length ∧
        (execLoop eng tag n i stmts).prog =
          (List.range k).map (fun j => 20 + 70 * (i + j) / n) := by
  intro stmts
  induction stmts with
  | nil =>
    intro i
    exact ⟨0, Nat.le_refl 0, by simp [execLoop_nil]⟩
  | cons s rest ih =>
    intro i
    cases ha : attemptOf eng tag s with
    | ok u =>
      obtain ⟨k, hk, hprog⟩ := ih (i + 1)
      refine ⟨k + 1, by simpa using Nat.succ_le_succ hk, ?_⟩
      have hsplit : (List.range (k + 1)).map (fun j => 20 + 70 * (i + j) / n) =
          (20 + 70 * i / n) ::
            (List.range k).map (fun j => 20 + 70 * (i + 1 + j) / n) := by
        rw [List.range_succ_eq_map, List.map_cons, List.map_map]
        refine congrArg₂ List.cons (by simp) ?_
        apply List.map_congr_left
        intro j hj
        have harith : i + Nat.succ j = i + 1 + j := by omega
        simp only [Function.comp]
        rw [harith]
      rw [execLoop_cons_ok eng tag n i s rest u ha, hsplit]
      show (20 + 70 * i / n) :: (execLoop eng tag n (i + 1) rest).prog = _
      rw [hprog]
    | error e =>
      refine ⟨1, by simp, ?_⟩
      rw [execLoop_cons_err eng tag n i s rest e ha]
      show [20 + 70 * i / n] = _
      have h1 : List.range 1 = [0] := rfl
      rw [h1]
      simp

/-- C7 (amended): for every run whose setup steps complete without an
exception, the progress trace is exactly the fixed milestones 0, 5, 10,
15, 20, then the per-statement percentages, which lie between 20 and 90,
then 100 on run completion regardless of Success or Failed, and the
whole trace is monotonically non-decreasing.  A run aborted by a setup
exception stops short of 100 (see the counterexample). -/
theorem c7_progress_milestones_and_monotone (eng : Engine) (tag db : String)
    (schema : Option String) (script : String) (mode : Bool)
    (hdb : ∃ v, eng.setDatabaseR = Except.ok v)
    (hsch : ∃ lg, schemaStep eng schema = Except.ok lg) :
    ∃ pcts, (runDeployment eng tag db schema script mode).prog =
        [0, 5, 10, 15, 20] ++ pcts ++ [100] ∧
      List.Chain' (· ≤ ·) ((runDeployment eng tag db schema script mode).prog) ∧
      ∀ x ∈ pcts, 20 ≤ x ∧ x ≤ 90 := by
  obtain ⟨v, hv⟩ := hdb
  obtain ⟨lg, hl⟩ := hsch
  by_cases he : (parse_sql script mode).isEmpty
  · have hrun : (runDeployment eng tag db schema script mode).prog =
        [0, 5, 10, 15, 20] ++ [] ++ [100] := by
      unfold runDeployment
      rw [hv, hl]
      simp [he]
    refine ⟨[], hrun, ?_, by simp⟩
    rw [hrun]
    simp [List.chain'_cons]
  · have hlen : 0 < (parse_sql script mode).length := by
      rcases hp : parse_sql script mode with _ | ⟨a, as⟩
      · rw [hp] at he
        simp at he
      · simp
    obtain ⟨k, hk, hprog⟩ := execLoop_prog_shape eng tag (parse_sql script mode).length
      (parse_sql script mode) 1
    have hrun : (runDeployment eng tag db schema script mode).prog =
        [0, 5, 10, 15, 20] ++
          (List.range k).map (fun j => 20 + 70 * (1 + j) / (parse_sql script mode).length) ++
          [100] := by
      unfold runDeployment
      rw [hv, hl]
      simp only [he, Bool.false_eq_true, if_false]
      rw [hprog]
      simp
    have hbounds : ∀ x ∈ (List.range k).map
        (fun j => 20 + 70 * (1 + j) / (parse_sql script mode).length),
        20 ≤ x ∧ x ≤ 90 := by
      intro x hx
      obtain ⟨j, hj, hxe⟩ := List.mem_map.mp hx
      have hj2 : j < k := List.mem_range.mp hj
      have hk2 : k ≤ (parse_sql script mode).length := hk
      subst hxe
      refine ⟨Nat.le_add_right 20 _, ?_⟩
      have h1 : 1 + j ≤ (parse_sql script mode).length := by omega
      have h2 := pct_le_70 (parse_sql script mode).length (1 + j) hlen h1
      omega
    refine ⟨(List.range k).map (fun j => 20 + 70 * (1 + j) / (parse_sql script mode).length),
      hrun, ?_, hbounds⟩
    rw [hrun, List.append_assoc]
    rw [List.chain'_append]
    refine ⟨by simp [List.chain'_cons], ?_, ?_⟩
    · rw [List.chain'_append]
      refine ⟨?_, by simp, ?_⟩
      · apply chain_map_range
        intro a b hab
        have h3 : 70 * (1 + a) / (parse_sql script mode).length ≤
            70 * (1 + b) / (parse_sql script mode).length :=
          Nat.div_le_div_right (Nat.mul_le_mul_left 70 (by omega))
        omega
      · intro x hx y hy
        simp only [List.head?_cons, Option.mem_def, Option.some_inj] at hy
        subst hy
        have hxm : x ∈ (List.range k).map
            (fun j => 20 + 70 * (1 + j) / (parse_sql script mode).length) := by
          obtain ⟨hne2, hxe⟩ := List.mem_getLast?_eq_getLast hx
          rw [hxe]
          exact List.getLast_mem hne2
        have := (hbounds x hxm).2
        omega
    · intro x hx y hy
      have hx20 : 20 = x := by
        simpa using hx
      subst hx20
      rcases hmap : (List.range k).map
          (fun j => 20 + 70 * (1 + j) / (parse_sql script mode).length) with _ | ⟨p, ps⟩
      · rw [hmap] at hy
        simp only [List.nil_append, List.head?_cons, Option.mem_def, Option.some_inj] at hy
        omega
      · rw [hmap] at hy
        simp only [List.cons_append, List.head?_cons, Option.mem_def, Option.some_inj] at hy
        subst hy
        have := (hbounds p (by rw [hmap]; simp)).1
        omega

theorem c7_progress_milestones_witness :
    (∃ v, okEngine.setDatabaseR = Except.ok v) ∧
    (∃ lg, schemaStep okEngine none = Except.ok lg) ∧
    (∃ pcts, (runDeployment okEngine ("J-1") ("DB") none ("SELECT 1;") false).prog =
        [0, 5, 10, 15, 20] ++ pcts ++ [100] ∧
      List.Chain' (· ≤ ·) ((runDeployment okEngine ("J-1") ("DB") none ("SELECT 1;") false).prog) ∧
      ∀ x ∈ pcts, 20 ≤ x ∧ x ≤ 90) :=
  ⟨⟨none, rfl⟩, ⟨[], rfl⟩,
   c7_progress_milestones_and_monotone okEngine ("J-1") ("DB") none ("SELECT 1;") false
     ⟨none, rfl⟩ ⟨[], rfl⟩⟩

/-! ## C9: an unclosed string literal swallows the rest of the script -/

theorem segStep_decompose {p q : List Char × Bool} (h : SegStep p q) (acc : List Char) :
    ∃ segs acc2, rawSegments p.1 p.2 acc = segs ++ rawSegments q.1 q.2 acc2 := by
  cases h with
  | openQuote rest =>
    refine ⟨[], quoteChar :: acc, ?_⟩
    cases rest with
    | nil => rfl
    | cons c2 rest2 => rfl
  | escPair rest =>
    exact ⟨[], quoteChar :: quoteChar :: acc, rfl⟩
  | closeQuote c2 rest hne =>
    refine ⟨[], quoteChar :: acc, ?_⟩
    simp [rawSegments, hne]
  | semiSplit rest =>
    refine ⟨[acc.reverse], [], ?_⟩
    cases rest with
    | nil => rfl
    | cons c2 rest2 => rfl
  | semiIn rest =>
    refine ⟨[], ';' :: acc, ?_⟩
    cases rest with
    | nil => rfl
    | cons c2 rest2 => rfl
  | plain c rest b h1 h2 =>
    refine ⟨[], c :: acc, ?_⟩
    cases rest with
    | nil => simp [rawSegments, h1, h2]
    | cons c2 rest2 => simp [rawSegments, h1, h2]

theorem segReach_decompose {p q : List Char × Bool}
    (h : Relation.ReflTransGen SegStep p q) :
    ∀ acc, ∃ segs acc2, rawSegments p.1 p.2 acc = segs ++ rawSegments q.1 q.2 acc2 := by
  induction h with
  | refl =>
    intro acc
    exact ⟨[], acc, rfl⟩
  | tail h1 h2 ih =>
    intro acc
    obtain ⟨segs, acc2, he⟩ := ih acc
    obtain ⟨segs2, acc3, he2⟩ := segStep_decompose h2 acc2
    exact ⟨segs ++ segs2, acc3, by rw [he, he2, List.append_assoc]⟩

theorem rawSegments_stuck : ∀ (l : List Char), closesString l = false →
    ∀ acc, rawSegments l true acc = [acc.reverse ++ l] := by
  have H : ∀ (m : Nat) (l : List Char), l.length ≤ m → closesString l = false →
      ∀ acc, rawSegments l true acc = [acc.reverse ++ l] := by
    intro m
    induction m with
    | zero =>
      intro l hl hnc acc
      have h0 : l = [] := List.length_eq_zero.mp (Nat.le_zero.mp hl)
      subst h0
      simp [rawSegments]
    | succ m ih =>
      intro l hl hnc acc
      match l with
      | [] => simp [rawSegments]
      | [c] =>
        have h1 : rawSegments [c] true acc = [(c :: acc).reverse] := by
          simp [rawSegments]
        rw [h1]
        simp
      | c :: c2 :: rest =>
        by_cases hc : c = quoteChar
        · subst hc
          by_cases hc2 : c2 = quoteChar
          · subst hc2
            have hcl : closesString rest = false := by
              simpa [closesString] using hnc
            have hlen : rest.length ≤ m := by
              simp at hl
              omega
            have hstep : rawSegments (quoteChar :: quoteChar :: rest) true acc =
                rawSegments rest true (quoteChar :: quoteChar :: acc) := by
              simp [rawSegments]
            rw [hstep, ih rest hlen hcl (quoteChar :: quoteChar :: acc)]
            simp
          · exfalso
            simp [closesString, hc2] at hnc
        · have hcl : closesString (c2 :: rest) = false := by
            simpa [closesString, hc] using hnc
          have hlen : (c2 :: rest).length ≤ m := by
            simp only [List.length_cons] at hl ⊢
            omega
          have hstep : rawSegments (c :: c2 :: rest) true acc =
              rawSegments (c2 :: rest) true (c :: acc) := by
            by_cases hsemi : c = ';'
            · subst hsemi
              rfl
            · simp [rawSegments, hc, hsemi]
          rw [hstep, ih (c2 :: rest) hlen hcl (c :: acc)]
          simp
  intro l hnc acc
  exact H l.length l (Nat.le_refl _) hnc acc

/-- C9: when the Phase B scan of the protected script reaches an
opening quote (in-string flag off) and the remainder never closes the
string with a matching lone quote, no later semicolon terminates a
statement: the raw segmentation ends with a single final accumulated
segment that carries the quote and all text after it. -/
theorem c9_unclosed_quote_swallows (script : String) (v : List Char)
    (hreach : Relation.ReflTransGen SegStep
      (protectedTextOf script, false) (quoteChar :: v, false))
    (hnc : closesString v = false) :
    ∃ segs pre, rawSegments (protectedTextOf script) false [] =
      segs ++ [pre ++ quoteChar :: v] := by
  obtain ⟨segs, acc2, hdec⟩ := segReach_decompose hreach []
  have hopen : rawSegments (quoteChar :: v) false acc2 =
      rawSegments v true (quoteChar :: acc2) := by
    cases v with
    | nil => rfl
    | cons c2 rest2 => rfl
  rw [hopen, rawSegments_stuck v hnc (quoteChar :: acc2)] at hdec
  refine ⟨segs, acc2.reverse, ?_⟩
  rw [hdec]
  simp

theorem c9_unclosed_quote_swallows_witness :
    (Relation.ReflTransGen SegStep
      (protectedTextOf (String.mk (quoteChar :: ("a;b").toList)), false)
      (quoteChar :: ("a;b").toList, false)) ∧
    closesString (("a;b").toList) = false ∧
    (∃ segs pre, rawSegments (protectedTextOf (String.mk (quoteChar :: ("a;b").toList))) false [] =
      segs ++ [pre ++ quoteChar :: ("a;b").toList]) := by
  have h1 : protectedTextOf (String.mk (quoteChar :: ("a;b").toList)) =
      quoteChar :: ("a;b").toList := by decide
  have hreach : Relation.ReflTransGen SegStep
      (protectedTextOf (String.mk (quoteChar :: ("a;b").toList)), false)
      (quoteChar :: ("a;b").toList, false) := by
    rw [h1]
  exact ⟨hreach, by decide, c9_unclosed_quote_swallows _ _ hreach (by decide)⟩

/-! ## C1: dollar-quoted blocks are protected atomically -/

theorem isPrefixOf_append_self (l x : List Char) : l.isPrefixOf (l ++ x) = true :=
  List.isPrefixOf_iff_prefix.mpr (List.prefix_append l x)

theorem takeWhile_word_prefix : ∀ (w X : List Char), (∀ c ∈ w, wordChar c = true) →
    (w ++ '$' :: X).takeWhile wordChar = w := by
  have hds : wordChar '$' = false := by decide
  intro w
  induction w with
  | nil =>
    intro X h
    simp [List.takeWhile_cons, hds]
  | cons c rest ih =>
    intro X h
    simp only [List.cons_append, List.takeWhile_cons, h c (by simp), if_true]
    rw [ih X (fun d hd => h d (by simp [hd]))]

theorem tagAt_valid (w rest : List Char) (hw : ∀ c ∈ w, wordChar c = true) :
    tagAt ('$' :: (w ++ ['$']) ++ rest) = some ('$' :: (w ++ ['$'])) := by
  have hshape : ('$' :: (w ++ ['$']) ++ rest : List Char) = '$' :: (w ++ '$' :: rest) := by
    simp
  rw [hshape]
  have ht : (w ++ '$' :: rest).takeWhile wordChar = w := takeWhile_word_prefix w rest hw
  have hd : (w ++ '$' :: rest).drop w.length = '$' :: rest := List.drop_left w ('$' :: rest)
  simp [tagAt, ht, hd]

theorem tagAt_not_dollar (c : Char) (rest : List Char) (h : c ≠ '$') :
    tagAt (c :: rest) = none := by
  simp [tagAt, h]

theorem firstOccAux_spec (pat : List Char) (hpat : pat ≠ []) :
    ∀ (m : Nat) (l : List Char) (base : Nat),
      (∀ k, k < m → pat.isPrefixOf (l.drop k) = false) →
      pat.isPrefixOf (l.drop m) = true →
      firstOccAux pat l base = some (base + m) := by
  intro m
  induction m with
  | zero =>
    intro l base h0 hm
    rw [List.drop_zero] at hm
    unfold firstOccAux
    simp [hm]
  | succ m ih =>
    intro l base h0 hm
    have hnot : pat.isPrefixOf l = false := by
      have h1 := h0 0 (Nat.succ_pos m)
      simpa using h1
    cases l with
    | nil =>
      exfalso
      rw [List.drop_nil] at hm
      cases pat with
      | nil => exact hpat rfl
      | cons a as =>
        rw [List.isPrefixOf_iff_prefix] at hm
        simp at hm
    | cons c rest =>
      unfold firstOccAux
      simp only [hnot, Bool.false_eq_true, if_false]
      have h2 := ih rest (base + 1)
        (fun k hk => by
          have h3 := h0 (k + 1) (by omega)
          simpa using h3)
        (by
          have h4 : (c :: rest).drop (m + 1) = rest.drop m := rfl
          rw [← h4]
          exact hm)
      rw [h2]
      congr 1
      omega

theorem protectAux_no_dollar : ∀ (fuel : Nat) (l : List Char) (idx : Nat),
    (∀ c ∈ l, c ≠ '$') → protectAux fuel l idx = (l, []) := by
  intro fuel
  induction fuel with
  | zero => intro l idx h; rfl
  | succ fuel ih =>
    intro l idx h
    cases l with
    | nil => rfl
    | cons c rest =>
      have hr := ih rest idx (fun d hd => h d (by simp [hd]))
      unfold protectAux
      rw [tagAt_not_dollar c rest (h c (by simp)), hr]

/-- Phase A finds exactly the dollar-quoted block when the text before
it and after it contains no dollar sign and the closing tag is the
first occurrence of the tag text after the opening tag. -/
theorem protect_block : ∀ (pre : List Char) (fuel : Nat) (w b post : List Char) (idx : Nat),
    (pre ++ ('$' :: (w ++ ['$']) ++ (b ++ ('$' :: (w ++ ['$']) ++ post)))).length ≤ fuel →
    (∀ c ∈ w, wordChar c = true) →
    (∀ c ∈ pre, c ≠ '$') → (∀ c ∈ post, c ≠ '$') →
    (∀ k, k < b.length →
      ('$' :: (w ++ ['$'])).isPrefixOf ((b ++ ('$' :: (w ++ ['$']) ++ post)).drop k) = false) →
    protectAux fuel (pre ++ ('$' :: (w ++ ['$']) ++ (b ++ ('$' :: (w ++ ['$']) ++ post)))) idx =
      (pre ++ (placeholderOf idx ++ post),
       [(placeholderOf idx, '$' :: (w ++ ['$']) ++ b ++ ('$' :: (w ++ ['$'])))]) := by
  intro pre
  induction pre with
  | nil =>
    intro fuel w b post idx hfuel hw hpre hpost hfo
    cases fuel with
    | zero =>
      exfalso
      simp only [List.nil_append, List.length_append, List.length_cons, Nat.le_zero] at hfuel
      omega
    | succ fuel =>
      simp only [List.nil_append]
      have h2 : tagAt ('$' :: ((w ++ ['$']) ++
          (b ++ ('$' :: (w ++ ['$']) ++ post)))) = some ('$' :: (w ++ ['$'])) := by
        rw [← List.cons_append]
        exact tagAt_valid w _ hw
      have h3 : ('$' :: ((w ++ ['$']) ++ (b ++ ('$' :: (w ++ ['$']) ++ post)))).drop
          (('$' :: (w ++ ['$'])).length) = b ++ ('$' :: (w ++ ['$']) ++ post) := by
        rw [← List.cons_append]
        exact List.drop_left _ _
      have h6 : firstOccAux ('$' :: (w ++ ['$'])) (b ++ ('$' :: (w ++ ['$']) ++ post)) 0 =
          some b.length := by
        have h7 := firstOccAux_spec ('$' :: (w ++ ['$'])) (by simp) b.length
          (b ++ ('$' :: (w ++ ['$']) ++ post)) 0 hfo
          (by
            rw [List.drop_left]
            exact isPrefixOf_append_self _ _)
        simpa using h7
      have h4 : (b ++ ('$' :: (w ++ ['$']) ++ post)).take b.length = b :=
        List.take_left _ _
      have h5 : (b ++ ('$' :: (w ++ ['$']) ++ post)).drop
          (b.length + ('$' :: (w ++ ['$'])).length) = post := by
        rw [← List.drop_drop, List.drop_left]
        have h9 : ('$' :: (w ++ ['$']) ++ post : List Char) =
            ('$' :: (w ++ ['$'])) ++ post := rfl
        rw [h9, List.drop_left]
      have h8 := protectAux_no_dollar fuel post (idx + 1) hpost
      have hcons : ('$' :: (w ++ ['$']) ++ (b ++ ('$' :: (w ++ ['$']) ++ post)) : List Char) =
          '$' :: ((w ++ ['$']) ++ (b ++ ('$' :: (w ++ ['$']) ++ post))) := rfl
      rw [hcons]
      unfold protectAux
      simp only [h2, h3, h6, h4, h5, h8]
  | cons c pre2 ih =>
    intro fuel w b post idx hfuel hw hpre hpost hfo
    cases fuel with
    | zero =>
      exfalso
      simp only [List.cons_append, List.length_cons, Nat.le_zero] at hfuel
      omega
    | succ fuel =>
      have hc : c ≠ '$' := hpre c (by simp)
      have hfuel2 : (pre2 ++ ('$' :: (w ++ ['$']) ++
          (b ++ ('$' :: (w ++ ['$']) ++ post)))).length ≤ fuel := by
        rw [List.cons_append, List.length_cons] at hfuel
        omega
      have hih := ih fuel w b post idx hfuel2 hw
        (fun d hd => hpre d (by simp [hd])) hpost hfo
      rw [List.cons_append]
      unfold protectAux
      rw [tagAt_not_dollar c _ hc]
      simp only [List.cons_append] at hih
      simp only [List.cons_append, hih]

/-- C1: a dollar-quoted block whose body contains no early occurrence
of its own tag is replaced whole by a single placeholder before the
semicolon scan, so the scan never sees the block's semicolons and the
block is never split; in particular the concrete procedure script with
two semicolons inside its double-dollar body yields exactly one
statement. -/
theorem c1_dollar_block_never_split (pre w b post : List Char)
    (hw : ∀ c ∈ w, wordChar c = true)
    (hpre : ∀ c ∈ pre, c ≠ '$') (hpost : ∀ c ∈ post, c ≠ '$')
    (hfo : ∀ k, k < b.length →
      ('$' :: (w ++ ['$'])).isPrefixOf ((b ++ ('$' :: (w ++ ['$']) ++ post)).drop k) = false) :
    (parse_sql (String.mk
        (pre ++ ('$' :: (w ++ ['$']) ++ (b ++ ('$' :: (w ++ ['$']) ++ post))))) false =
      ((rawSegments (pre ++ (placeholderOf 0 ++ post)) false []).filterMap
        (processSeg [(placeholderOf 0, '$' :: (w ++ ['$']) ++ b ++ ('$' :: (w ++ ['$'])))])).map
          String.mk)
    ∧ parse_sql ("CREATE PROCEDURE p() RETURNS VARCHAR AS $$ a; b; $$;") false =
        [("CREATE PROCEDURE p() RETURNS VARCHAR AS $$ a; b; $$")] := by
  constructor
  · have hp := protect_block pre
      (pre ++ ('$' :: (w ++ ['$']) ++ (b ++ ('$' :: (w ++ ['$']) ++ post)))).length
      w b post 0 (Nat.le_refl _) hw hpre hpost hfo
    unfold parse_sql
    simp only [Bool.false_eq_true, if_false]
    have htl : (String.mk
        (pre ++ ('$' :: (w ++ ['$']) ++ (b ++ ('$' :: (w ++ ['$']) ++ post))))).toList =
        pre ++ ('$' :: (w ++ ['$']) ++ (b ++ ('$' :: (w ++ ['$']) ++ post))) := rfl
    rw [htl]
    unfold protectList
    rw [hp]
  · decide

theorem c1_dollar_block_never_split_witness :
    (∀ c ∈ ([] : List Char), wordChar c = true) ∧
    (∀ c ∈ (("CREATE PROCEDURE p() RETURNS VARCHAR AS ")).toList, c ≠ '$') ∧
    (∀ c ∈ ((";")).toList, c ≠ '$') ∧
    (∀ k, k < ((" a; b; ")).toList.length →
      ('$' :: (([] : List Char) ++ ['$'])).isPrefixOf
        (((((" a; b; ")).toList ++ ('$' :: (([] : List Char) ++ ['$']) ++
          ((";")).toList))).drop k) = false) ∧
    ((parse_sql (String.mk ((("CREATE PROCEDURE p() RETURNS VARCHAR AS ")).toList ++
        ('$' :: (([] : List Char) ++ ['$']) ++ (((" a; b; ")).toList ++
        ('$' :: (([] : List Char) ++ ['$']) ++ ((";")).toList))))) false =
      ((rawSegments ((("CREATE PROCEDURE p() RETURNS VARCHAR AS ")).toList ++
          (placeholderOf 0 ++ ((";")).toList)) false []).filterMap
        (processSeg [(placeholderOf 0, '$' :: (([] : List Char) ++ ['$']) ++
          ((" a; b; ")).toList ++ ('$' :: (([] : List Char) ++ ['$'])))])).map String.mk)
    ∧ parse_sql ("CREATE PROCEDURE p() RETURNS VARCHAR AS $$ a; b; $$;") false =
        [("CREATE PROCEDURE p() RETURNS VARCHAR AS $$ a; b; $$")]) :=
  ⟨by decide, by decide, by decide, by decide,
   c1_dollar_block_never_split (("CREATE PROCEDURE p() RETURNS VARCHAR AS ")).toList
     [] ((" a; b; ")).toList ((";")).toList
     (by decide) (by decide) (by decide) (by decide)⟩

/-! ## C4: without quotes or dollar blocks, segmentation is a plain split -/

theorem protectAux_cons_none (fuel : Nat) (c : Char) (rest : List Char) (idx : Nat)
    (h : tagAt (c :: rest) = none) :
    protectAux (fuel + 1) (c :: rest) idx =
      (c :: (protectAux fuel rest idx).1, (protectAux fuel rest idx).2) := by
  conv_lhs => unfold protectAux
  rw [h]

theorem protectAux_cons_noclose (fuel : Nat) (c : Char) (rest : List Char) (idx : Nat)
    (t : List Char) (h : tagAt (c :: rest) = some t)
    (h2 : firstOccAux t ((c :: rest).drop t.length) 0 = none) :
    protectAux (fuel + 1) (c :: rest) idx =
      (c :: (protectAux fuel rest idx).1, (protectAux fuel rest idx).2) := by
  conv_lhs => unfold protectAux
  rw [h]
  dsimp only
  rw [h2]

theorem protectAux_cons_close (fuel : Nat) (c : Char) (rest : List Char) (idx : Nat)
    (t : List Char) (k : Nat) (h : tagAt (c :: rest) = some t)
    (h2 : firstOccAux t ((c :: rest).drop t.length) 0 = some k) :
    protectAux (fuel + 1) (c :: rest) idx =
      (placeholderOf idx ++
        (protectAux fuel (((c :: rest).drop t.length).drop (k + t.length)) (idx + 1)).1,
       (placeholderOf idx, t ++ ((c :: rest).drop t.length).take k ++ t) ::
        (protectAux fuel (((c :: rest).drop t.length).drop (k + t.length)) (idx + 1)).2) := by
  conv_lhs => unfold protectAux
  rw [h]
  dsimp only
  rw [h2]

theorem protectAux_fst_of_snd_nil : ∀ (fuel : Nat) (l : List Char) (idx : Nat),
    (protectAux fuel l idx).2 = [] → (protectAux fuel l idx).1 = l := by
  intro fuel
  induction fuel with
  | zero => intro l idx _; rfl
  | succ fuel ih =>
    intro l idx hsnd
    cases l with
    | nil => rfl
    | cons c rest =>
      cases htag : tagAt (c :: rest) with
      | none =>
        have heq := protectAux_cons_none fuel c rest idx htag
        rw [heq] at hsnd
        rw [heq]
        show c :: (protectAux fuel rest idx).1 = c :: rest
        rw [ih rest idx hsnd]
      | some t =>
        cases hocc : firstOccAux t ((c :: rest).drop t.length) 0 with
        | none =>
          have heq := protectAux_cons_noclose fuel c rest idx t htag hocc
          rw [heq] at hsnd
          rw [heq]
          show c :: (protectAux fuel rest idx).1 = c :: rest
          rw [ih rest idx hsnd]
        | some k =>
          have heq := protectAux_cons_close fuel c rest idx t k htag hocc
          rw [heq] at hsnd
          simp at hsnd

theorem rawSegments_no_quote : ∀ (l : List Char) (acc : List Char), quoteChar ∉ l →
    rawSegments l false acc = splitOnCharAux ';' l acc := by
  intro l
  induction l with
  | nil => intro acc _; rfl
  | cons c rest ih =>
    intro acc h
    have hc : c ≠ quoteChar := by
      intro he
      exact h (by simp [he])
    cases rest with
    | nil =>
      by_cases hsemi : c = ';'
      · subst hsemi
        rfl
      · simp [rawSegments, splitOnCharAux_cons, splitOnCharAux_nil, hc, hsemi]
    | cons c2 rest2 =>
      have hrest : quoteChar ∉ c2 :: rest2 := fun hm => h (by simp [hm])
      by_cases hsemi : c = ';'
      · subst hsemi
        have h1 : rawSegments (';' :: c2 :: rest2) false acc =
            acc.reverse :: rawSegments (c2 :: rest2) false [] := rfl
        rw [h1, ih [] hrest]
        rfl
      · have h1 : rawSegments (c :: c2 :: rest2) false acc =
            rawSegments (c2 :: rest2) false (c :: acc) := by
          simp [rawSegments, hc, hsemi]
        rw [h1, ih (c :: acc) hrest]
        conv_rhs => rw [splitOnCharAux_cons, if_neg hsemi]

theorem not_all_eq_any_not (p : List Char → Bool) : ∀ (ls : List (List Char)),
    ls.any (fun x => !p x) = !ls.all p := by
  intro ls
  induction ls with
  | nil => rfl
  | cons a as ih => simp [List.any_cons, List.all_cons, ih, Bool.not_and]

theorem anyGoodLine_eq_not_commentOnly (l : List Char) :
    anyGoodLine l = !isCommentOnlyFrag l := by
  unfold anyGoodLine isCommentOnlyFrag goodLine
  rw [← not_all_eq_any_not
    (fun line => (pyStripL line).isEmpty || ("--").toList.isPrefixOf (pyStripL line))
    (splitLines l)]
  simp only [Bool.not_or]

theorem processSeg_nil_eq (seg : List Char) :
    processSeg [] seg =
      if !(pyStripL seg).isEmpty && !isCommentOnlyFrag (pyStripL seg) then some (pyStripL seg)
      else none := by
  unfold processSeg restoreAll
  simp only [List.foldl_nil]
  by_cases he : (pyStripL seg).isEmpty
  · simp [he]
  · simp only [he, Bool.false_eq_true, if_false, Bool.not_false, Bool.true_and]
    rw [anyGoodLine_eq_not_commentOnly]

theorem filterMap_processSeg_nil : ∀ (segs : List (List Char)),
    segs.filterMap (processSeg []) =
      (segs.map pyStripL).filter (fun f => !f.isEmpty && !isCommentOnlyFrag f) := by
  intro segs
  induction segs with
  | nil => rfl
  | cons seg rest ih =>
    rw [List.filterMap_cons, List.map_cons, List.filter_cons, processSeg_nil_eq]
    by_cases hcond : (!(pyStripL seg).isEmpty && !isCommentOnlyFrag (pyStripL seg)) = true
    · simp only [hcond, if_true, ih]
    · rw [if_neg hcond]
      simp only [Bool.not_eq_true] at hcond
      simp [hcond, ih]

/-- C4: for every script with no single quote and in which Phase A
finds no dollar-quoted block, multi-statement segmentation equals the
reference function built from the spec's words: split on every
semicolon, trim each fragment, and remove fragments that are empty or
comment-only (every non-empty line begins with the comment marker,
stripped-then-checked per logical line). -/
theorem c4_plain_split_refinement (script : String)
    (hq : quoteChar ∉ script.toList)
    (hd : (protectList script.toList).2 = []) :
    parse_sql script false = referenceSegment script := by
  have hfst : (protectList script.toList).1 = script.toList :=
    protectAux_fst_of_snd_nil _ _ _ hd
  unfold parse_sql referenceSegment
  simp only [Bool.false_eq_true, if_false]
  rw [hfst, hd, rawSegments_no_quote script.toList [] hq, filterMap_processSeg_nil]

theorem c4_plain_split_refinement_witness :
    (quoteChar ∉ (("SELECT 1;\n-- note\nDROP TABLE t;")).toList) ∧
    ((protectList (("SELECT 1;\n-- note\nDROP TABLE t;")).toList).2 = []) ∧
    parse_sql ("SELECT 1;\n-- note\nDROP TABLE t;") false =
      referenceSegment ("SELECT 1;\n-- note\nDROP TABLE t;") :=
  ⟨by decide, by decide,
   c4_plain_split_refinement ("SELECT 1;\n-- note\nDROP TABLE t;") (by decide) (by decide)⟩

end SqlDeploy
